import Mathlib

/-!
# Verification of the HORECA finder pipeline

Shallow embedding, in Lean 4, of the core data-handling code of the
HORECA finder repository (`src/utils.py`, `src/ai_classifier.py`, and the
final filter/sort step of the two orchestrator scripts), together with
theorems settling the behavioural claims about that code.

Strings are modelled as Lean `String`/`List Char`; Python dictionaries as
association lists; the checkpoint file as an optional record list; and the
external classification oracle as an explicit function parameter.
-/

namespace Horeca

/-! ## Python string primitives

The Python snippets being modelled operate on ASCII business data; we model
`str.lower` as ASCII lowercasing, `\s` as Python's whitespace class, and
`\d` / `\D` as the ASCII digit class. -/

/-- The characters matched by Python's `\s` (whitespace) class, restricted to
ASCII: space, tab, newline, carriage return, vertical tab, form feed. -/
def pySpace (c : Char) : Bool :=
  c == ' ' || c == '\t' || c == '\n' || c == '\r' ||
  c == Char.ofNat 11 || c == Char.ofNat 12

/-- Python `str.strip()`: remove leading and trailing whitespace. -/
def pyStrip (l : List Char) : List Char :=
  ((l.dropWhile pySpace).reverse.dropWhile pySpace).reverse

/-- Helper for `collapseWS`: `sawSpace` records whether the previous character
was part of a whitespace run that has already emitted its single `' '`. -/
def collapseWSAux : Bool → List Char → List Char
  | _, [] => []
  | sawSpace, c :: rest =>
    if pySpace c then
      if sawSpace then collapseWSAux true rest
      else ' ' :: collapseWSAux true rest
    else c :: collapseWSAux false rest

/-- Python `re.sub(r"\s+", " ", s)`: replace every maximal whitespace run by a
single space. -/
def collapseWS (l : List Char) : List Char :=
  collapseWSAux false l

/-- The alternatives of the legal-suffix regex in
`Deduplicator.normalize_company_name` (`src/utils.py`, line 18), in the order
they appear in the pattern `(gmbh|ltd|inc|ag|sa|srl|sas|s\.a\.r\.l|eurl)$`.
Note the eighth alternative matches the literal text `s.a.r.l`, not `sarl`. -/
def legalSuffixAlts : List (List Char) :=
  ["gmbh".data, "ltd".data, "inc".data, "ag".data, "sa".data,
   "srl".data, "sas".data, "s.a.r.l".data, "eurl".data]

/-- Python `re.sub(r"(gmbh|ltd|inc|ag|sa|srl|sas|s\.a\.r\.l|eurl)$", "", s)`.
Because every alternative is anchored at `$`, a match is a substring that is
simultaneously one of the alternatives and a suffix of the whole string, and
`re.sub` removes the leftmost such match, i.e. scanning positions from the
left, the first position whose remaining suffix equals an alternative. -/
def stripReSuffix : List Char → List Char
  | [] => []
  | c :: rest =>
    if (c :: rest) ∈ legalSuffixAlts then []
    else c :: stripReSuffix rest

/-- Python `str.lower` restricted to ASCII (the data being normalized). -/
def pyLower (c : Char) : Char := c.toLower

/-- Embedding of `Deduplicator.normalize_company_name` (`src/utils.py`, lines 12-20):
lowercase and trim, collapse whitespace runs, strip the regex suffix, then
collapse and trim again. -/
def normalize_company_name (name : List Char) : List Char :=
  let n1 := pyStrip (name.map pyLower)
  let n2 := collapseWS n1
  let n3 := stripReSuffix n2
  pyStrip (collapseWS n3)

/-- Embedding of `Deduplicator.normalize_phone` (`src/utils.py`, lines 22-27): drop every
non-digit character, keep the last 9 digits (all of them when fewer). -/
def normalize_phone (phone : List Char) : List Char :=
  let ds := phone.filter Char.isDigit
  ds.drop (ds.length - 9)

/-! ## Deduplicator (`src/utils.py`)

A record, for the Deduplicator, is modelled by the five fields the matching
logic reads. Python's `record.get(k)` yields a falsy value (`None` or `""`)
exactly when the modelled field is `""`, and `record["company_name"]` /
`record["city"]` are read unconditionally by the code, so plain `String`
fields with `""` for "absent" capture the truthiness tests faithfully.

The fuzzy similarity metric (`fuzz.token_set_ratio`, an external library the
code treats as an opaque 0-100 scorer) is modelled as an explicit function
parameter `sim` applied to the two normalized names. -/

structure Record where
  id : String
  website : String
  phone : String
  city : String
  company_name : String
deriving DecidableEq, Repr

/-- Embedding of `Deduplicator.fuzzy_match_names` (`src/utils.py`, lines 29-36): normalize
both names, score them with the similarity oracle, compare to the threshold. -/
def fuzzy_match_names (sim : List Char → List Char → Nat)
    (name1 name2 : List Char) (threshold : Nat) : Bool :=
  threshold ≤ sim (normalize_company_name name1) (normalize_company_name name2)

/-- Python `str.lower` on a whole string (ASCII). -/
def pyLowerStr (s : String) : String := ⟨s.data.map pyLower⟩

/-- Embedding of `Deduplicator.is_duplicate` (`src/utils.py`, lines 38-69): an or-chain of
the four early-return checks — equal non-empty ids, equal non-empty websites,
equal non-empty normalized phones, same (case-insensitive) non-empty city plus
fuzzy name match. -/
def is_duplicate (sim : List Char → List Char → Nat) (threshold : Nat)
    (rec1 rec2 : Record) : Bool :=
  (rec1.id != "" && rec2.id != "" && rec1.id == rec2.id) ||
  (rec1.website != "" && rec2.website != "" && rec1.website == rec2.website) ||
  (rec1.phone != "" && rec2.phone != "" &&
    (let p1 := normalize_phone rec1.phone.data
     let p2 := normalize_phone rec2.phone.data
     !p1.isEmpty && !p2.isEmpty && p1 == p2)) ||
  (rec1.city != "" && rec2.city != "" &&
    pyLowerStr rec1.city == pyLowerStr rec2.city &&
    fuzzy_match_names sim rec1.company_name.data rec2.company_name.data threshold)

/-- Embedding of `Deduplicator.deduplicate` (`src/utils.py`, lines 71-108). The Python loop
keeps the first not-yet-seen record as a representative and adds every later
not-yet-seen duplicate of it to `seen_indices`; marks are permanent and
`is_duplicate` is state-independent, so marking all later duplicates of the
representative is the same as filtering them out of the remaining list before
recursing — which is how the seen-set state is passed here. -/
def deduplicate (sim : List Char → List Char → Nat) (threshold : Nat) :
    List Record → List Record
  | [] => []
  | rec :: rest =>
    rec :: deduplicate sim threshold
      (rest.filter (fun other => !is_duplicate sim threshold rec other))
termination_by l => l.length
decreasing_by
  simp only [List.length_cons]
  exact Nat.lt_succ_of_le (List.length_filter_le _ _)

/-! ## Python dictionaries

The classifier and the CSV writer treat records as open dictionaries. A
record is modelled as an association list of string keys and string values
(the enrichment payloads the claims exercise are dictionaries of scalar
values, and only key structure, lookup, and insertion order are observable
in the modelled code). Python dictionaries never hold duplicate keys;
lookup takes the first match and assignment rewrites every match, so the
model agrees with Python on every dictionary reachable from Python code. -/

abbrev Dict : Type := List (String × String)

/-- Python `d.get(k)`: the value at `k`, or `None` (here `none`) if absent. -/
def dget (d : Dict) (k : String) : Option String :=
  (d.find? (fun kv => kv.1 == k)).map (fun kv => kv.2)

/-- Python `d[k] = v`: replace the value in place if the key is present
(keeping its position), otherwise append the new binding. -/
def dset (d : Dict) (k v : String) : Dict :=
  if d.any (fun kv => kv.1 == k) then
    d.map (fun kv => if kv.1 == k then (k, v) else kv)
  else d ++ [(k, v)]

/-- Python `d.update(e)`: assign `e`'s bindings into `d` in `e`'s order. -/
def dupdate (d e : Dict) : Dict :=
  e.foldl (fun acc kv => dset acc kv.1 kv.2) d

/-- Python truthiness of an `Optional[str]`: `None` and `""` are falsy. -/
def truthy : Option String → Bool
  | none => false
  | some s => s != ""

/-- Python `f"{x}"` of a `str`-or-`None` value (`None` renders as "None"). -/
def pyStrOpt : Option String → String
  | none => "None"
  | some s => s

/-- The resume key of `AIClassifier.classify_all` (`src/ai_classifier.py`,
lines 79 and 86): `r.get("id") or f"{r.get('company_name')}_{r.get('city')}"`. -/
def uid (rec : Dict) : String :=
  if truthy (dget rec "id") then pyStrOpt (dget rec "id")
  else pyStrOpt (dget rec "company_name") ++ "_" ++ pyStrOpt (dget rec "city")

/-! ## Batch classifier (`src/ai_classifier.py`)

The external LLM call is a black box. Two layers model it. The abstract
layer below (`mergeBatch`, `runBatches`, `classify_all`) takes the batch
classifier as a function `cb : List Dict → List Dict` straight to the list
of parsed objects: this is the well-shaped domain of the spec's oracle
contract (a JSON array of enrichment objects), the domain on which the
resume, alignment and mutation claims live. A refinement further down
(`classify_batch`, `mergeBatchShaped`, `runBatchesShaped`) keeps the parsed
response's JSON shape, because `classify_batch`'s `try` only catches what
raises inside it — a response that parses to JSON of the wrong shape is
returned as-is and meets `classify_all`'s merge loop with no handler. -/

/-- The sentinel enrichment written when a batch position has no (truthy)
oracle result (`src/ai_classifier.py`, line 122). -/
def sentinelize (rec : Dict) : Dict :=
  dset rec "contact_recommendation" "Error/Skipped in batch"

/-- The merge loop body of `classify_all` (`src/ai_classifier.py`, lines
111-124): walk the batch by position `j`; take `batch_results[j]` when it
exists (else `{}`); a truthy result is merged onto the record with
`record.update`, otherwise the sentinel is assigned; every record is kept. -/
def mergeBatch : List Dict → List Dict → List Dict
  | [], _ => []
  | rec :: recs, results =>
    let res := results.headD []
    let merged := if res.isEmpty then sentinelize rec else dupdate rec res
    merged :: mergeBatch recs (results.drop 1)

/-- The batch slicing of `classify_all`'s loop
(`for i in range(0, len(remaining_records), batch_size)` with
`remaining_records[i : i + batch_size]`, lines 100-102), for a positive
batch size (Python's `range` rejects a zero step). -/
def chunkList {α : Type} (bs : Nat) : List α → List (List α)
  | [] => []
  | rec :: rest => (rec :: rest.take (bs - 1)) :: chunkList bs (rest.drop (bs - 1))
termination_by l => l.length
decreasing_by
  simp only [List.length_cons, List.length_drop]
  omega

/-- The per-batch loop of `classify_all` (`src/ai_classifier.py`, lines
100-133): call the oracle once per batch, merge, append the merged batch to
the accumulator, and save the whole accumulator. Returns the final
accumulator, the number of `classify_batch` invocations, and the number of
checkpoint writes. -/
def runBatches (cb : List Dict → List Dict) (acc : List Dict) :
    List (List Dict) → List Dict × Nat × Nat
  | [] => (acc, 0, 0)
  | batch :: rest =>
    let results := cb batch
    let acc2 := acc ++ mergeBatch batch results
    let (finalAcc, calls, writes) := runBatches cb acc2 rest
    (finalAcc, calls + 1, writes + 1)

/-- The observable outcome of one `classify_all` run: the returned
accumulator, the number of oracle (batch) calls, the number of checkpoint
writes, and the checkpoint file content when the run ends (`none` = the file
was never created). -/
structure RunResult where
  acc : List Dict
  oracleCalls : Nat
  fileWrites : Nat
  finalFile : Option (List Dict)
deriving DecidableEq

/-- Embedding of `AIClassifier.classify_all` (`src/ai_classifier.py`, lines 61-137), with
the checkpoint file abstracted to its record content (`none` = absent). When
resuming from an existing file, the saved records seed the accumulator and
their UIDs the skip set; records whose UID is already processed are removed;
an empty work queue returns the accumulator with no call and no write;
otherwise the batch loop runs and the file ends up holding the final
accumulator (it is rewritten whole after every batch). -/
def classify_all (cb : List Dict → List Dict) (records : List Dict)
    (file : Option (List Dict)) (batchSize : Nat) (resume : Bool) : RunResult :=
  let classified0 : List Dict :=
    match resume, file with
    | true, some saved => saved
    | _, _ => []
  let processedIds := classified0.map uid
  let remaining := records.filter (fun rec => !processedIds.contains (uid rec))
  if remaining.isEmpty then
    ⟨classified0, 0, 0, file⟩
  else
    let (finalAcc, calls, writes) := runBatches cb classified0 (chunkList batchSize remaining)
    ⟨finalAcc, calls, writes, some finalAcc⟩

/-! ## Parsed responses of arbitrary JSON shape

The `try` block of `classify_batch` (`src/ai_classifier.py`, lines 28-59)
catches transport errors, non-success statuses and `json.loads` failures,
returning `[{}] * len(records)`. But when `json.loads` succeeds, whatever
value it produced — array or not — is returned unchecked (line 54), and the
merge loop of `classify_all` (lines 110-124) then runs on it with no
exception handler. The types below refine the response with its JSON shape
to settle what that loop does on a parseable but malformed response.
Response arrays are modelled with scalar-or-object elements; an array
element that is itself an array (whose `record.update` behaviour depends on
pair-unpacking its inner values, possibly injecting non-string keys) lies
outside this record model and outside every claim. -/

/-- An element of a parsed JSON array response: an object, a string, or a
number. -/
inductive RespElem where
  | eobj (d : Dict)
  | estr (s : String)
  | enum (n : Int)
deriving DecidableEq

/-- A successfully parsed JSON response: an array of elements, or a
non-array value (an object, a string, or a number). -/
inductive PyResp where
  | arr (elems : List RespElem)
  | obj (d : Dict)
  | jstr (s : String)
  | jnum (n : Int)
deriving DecidableEq

/-- Embedding of `AIClassifier.classify_batch` (`src/ai_classifier.py`,
lines 21-59), keeping the parsed response shape: with no API key, or when
the call, the HTTP status, or `json.loads` raises (all modelled by `none`),
return `[{}] * len(records)`; otherwise return whatever value the JSON
parse produced, unchecked. -/
def classify_batch (apiKey : String) (oracle : List Dict → Option PyResp)
    (records : List Dict) : PyResp :=
  if apiKey == "" then
    PyResp.arr (List.replicate records.length (RespElem.eobj []))
  else
    match oracle records with
    | some results => results
    | none => PyResp.arr (List.replicate records.length (RespElem.eobj []))

/-- Python `len(batch_results)` (`src/ai_classifier.py`, line 115): defined
for lists, dicts and strings; raises `TypeError` on a number. -/
def pyRespLen : PyResp → Except String Nat
  | PyResp.arr elems => Except.ok elems.length
  | PyResp.obj d => Except.ok d.length
  | PyResp.jstr s => Except.ok s.length
  | PyResp.jnum _ => Except.error "TypeError: object of type int has no len()"

/-- Python `batch_results[j]` (line 116), evaluated only under `j < len`: a
list yields its element, a string yields a one-character string, and a dict
raises `KeyError` (a JSON object only has string keys, never the integer
`j`); a number never reaches here, `len` having raised first. -/
def pyRespIndex : PyResp → Nat → Except String RespElem
  | PyResp.arr elems, j => Except.ok (elems.getD j (RespElem.eobj []))
  | PyResp.obj _, _ => Except.error "KeyError"
  | PyResp.jstr s, j => Except.ok (RespElem.estr ⟨[s.data.getD j ' ']⟩)
  | PyResp.jnum _, _ => Except.error "TypeError: object of type int has no len()"

/-- Python truthiness of a response element (line 118). -/
def elemTruthy : RespElem → Bool
  | RespElem.eobj d => !d.isEmpty
  | RespElem.estr s => s != ""
  | RespElem.enum n => n != 0

/-- Python `record.update(res)` (line 119): an object merges; a non-empty
string raises `ValueError` (iterating it yields length-1 characters where a
key-value pair is required); a number raises `TypeError` (not iterable). -/
def elemUpdate (rec : Dict) : RespElem → Except String Dict
  | RespElem.eobj e => Except.ok (dupdate rec e)
  | RespElem.estr s =>
    if s == "" then Except.ok rec
    else Except.error "ValueError: dictionary update sequence element has length 1"
  | RespElem.enum _ => Except.error "TypeError: int object is not iterable"

/-- The merge loop of `classify_all` (lines 110-124) over a parsed response
of arbitrary shape; `j` is the position of the current record in the batch.
An exception aborts the whole run — nothing in `classify_all` catches it —
so the error is propagated. -/
def mergeBatchShapedAux (results : PyResp) :
    List Dict → Nat → Except String (List Dict)
  | [], _ => Except.ok []
  | rec :: recs, j =>
    match pyRespLen results with
    | Except.error msg => Except.error msg
    | Except.ok n =>
      match (if j < n then pyRespIndex results j
             else Except.ok (RespElem.eobj [])) with
      | Except.error msg => Except.error msg
      | Except.ok res =>
        match (if elemTruthy res then elemUpdate rec res
               else Except.ok (dset rec "contact_recommendation" "Error/Skipped in batch")) with
        | Except.error msg => Except.error msg
        | Except.ok merged =>
          match mergeBatchShapedAux results recs (j + 1) with
          | Except.error msg => Except.error msg
          | Except.ok rest => Except.ok (merged :: rest)

/-- The shape-aware merge loop, started at position 0. -/
def mergeBatchShaped (batch : List Dict) (results : PyResp) :
    Except String (List Dict) :=
  mergeBatchShapedAux results batch 0

/-- The batch loop (lines 100-133) over shaped responses: an uncaught
exception from the merge loop aborts the run, so later batches are never
processed and no further checkpoint is written; on success each batch adds
one oracle call and one checkpoint write, like `runBatches`. -/
def runBatchesShaped (cb : List Dict → PyResp) (acc : List Dict) :
    List (List Dict) → Except String (List Dict × Nat × Nat)
  | [] => Except.ok (acc, 0, 0)
  | batch :: rest =>
    match mergeBatchShaped batch (cb batch) with
    | Except.error msg => Except.error msg
    | Except.ok merged =>
      match runBatchesShaped cb (acc ++ merged) rest with
      | Except.error msg => Except.error msg
      | Except.ok next => Except.ok (next.1, next.2.1 + 1, next.2.2 + 1)

/-- The spec's oracle boundary (`enrichment objects`): a response object that
carries only enrichment fields, never the identity fields (`id`,
`company_name`, `city`) that the resume key is derived from. -/
def enrichmentOnly (res : Dict) : Prop :=
  ∀ kv ∈ res, kv.1 ≠ "id" ∧ kv.1 ≠ "company_name" ∧ kv.1 ≠ "city"

instance (res : Dict) : Decidable (enrichmentOnly res) := by
  unfold enrichmentOnly; infer_instance

/-! ## CSV writing (`FileManager.save_csv`)

`save_csv` is modelled by the data it writes: `none` when the record list is
empty (the code prints a warning and writes nothing), otherwise the header
(the first record's key list) and one row of strings per record. Python's
`csv.DictWriter` serializes a missing key as the `restval` default `""`.
The repository contains two copies of `FileManager.save_csv`: the one in
`src/utils.py` (line 124) passes `extrasaction="ignore"`, while the copy in
`src/horeca_distributor_finder.py` (lines 547-560) leaves `extrasaction` at
its default `"raise"`, under which `DictWriter` raises `ValueError` on any
record holding a key outside the header. -/

/-- The key list of a record, in insertion order (Python `list(d.keys())`). -/
def dkeys (d : Dict) : List String := d.map (fun kv => kv.1)

/-- One `DictWriter` row: the record's value at each header field, the empty
string when the field is missing (`restval=""`). -/
def csvRow (fieldnames : List String) (rec : Dict) : List String :=
  fieldnames.map (fun f => (dget rec f).getD "")

/-- Embedding of `FileManager.save_csv` of `src/utils.py` (lines 114-128), with
`extrasaction="ignore"`: keys outside the header are skipped silently. -/
def save_csv (records : List Dict) : Option (List String × List (List String)) :=
  match records with
  | [] => none
  | rec0 :: _ => some (dkeys rec0, records.map (csvRow (dkeys rec0)))

/-- Embedding of `FileManager.save_csv` of `src/horeca_distributor_finder.py` (lines
547-560), without `extrasaction="ignore"`: `DictWriter` raises `ValueError`
as soon as some record carries a key not in the header. -/
def save_csv_strict (records : List Dict) :
    Except String (Option (List String × List (List String))) :=
  match records with
  | [] => Except.ok none
  | rec0 :: _ =>
    let fns := dkeys rec0
    if records.any (fun rec => rec.any (fun kv => !fns.contains kv.1)) then
      Except.error "ValueError: dict contains fields not in fieldnames"
    else Except.ok (some (fns, records.map (csvRow fns)))

/-! ## Final filter and sort (orchestrator `main`)

`src/nrw_frozen_food_warehouse_finder.py` lines 226-235 and
`src/horeca_distributor_finder.py` lines 677-686 (identical code): keep the
classified records whose truthy `priority_score` converts to a number `≥ 7`,
then `sorted(..., key=..., reverse=True)`. The scores the pipeline produces
are integers 1-10 (possibly read back from CSV as their decimal strings), so
`float(...)` is modelled as exact natural-number parsing. Python's `sorted`
is stable also with `reverse=True`: the output is the unique permutation
that is descending in the key with tied elements in original order, which is
what `List.insertionSort` with the reflexive descending-comparison computes
(permutation, descending order and tie stability are proved below). -/

/-- Decimal natural-number parsing (the value `float(...)` yields on the
integer score strings the pipeline produces). -/
def parseNat (s : String) : Option Nat :=
  if !s.data.isEmpty && s.data.all Char.isDigit then
    some (s.data.foldl (fun n c => n * 10 + (c.toNat - 48)) 0)
  else none

/-- The numeric value of a record's `priority_score` (0 when absent; the
modelled domain is records whose present scores are decimal naturals). -/
def scoreVal (rec : Dict) : Nat :=
  (parseNat ((dget rec "priority_score").getD "")).getD 0

/-- The filter of the final list:
`r.get("priority_score") and float(r.get("priority_score", 0)) >= 7`. -/
def keepHighPriority (rec : Dict) : Bool :=
  truthy (dget rec "priority_score") && decide (7 ≤ scoreVal rec)

/-- The comparison `sorted(..., key=lambda x: float(...), reverse=True)`
sorts by: `a` may precede `b` iff `b`'s key does not exceed `a`'s. -/
def scoreDescOrder (a b : Dict) : Prop := scoreVal b ≤ scoreVal a

instance : DecidableRel scoreDescOrder := fun a b =>
  Nat.decLe (scoreVal b) (scoreVal a)

/-- The final filter-and-sort step of both orchestrators. -/
def finalFilterSort (records : List Dict) : List Dict :=
  (records.filter keepHighPriority).insertionSort scoreDescOrder

/-! ## Reference semantics of the classifier merge loop

`classify_all` mutates the very dictionary objects handed in by the caller
(`record.update(res)` / `record["contact_recommendation"] = ...`) and appends
those same objects to its accumulator. To reason about object identity, the
heap of record objects is made explicit: a store (list of dictionaries
indexed by position) stands for the heap, and the caller's record list is a
list of references (store indices). This is the same merge loop as
`mergeBatch`/`runBatches`, written in store-passing style. -/

/-- Dereference a record object. -/
def storeGet (store : List Dict) (ref : Nat) : Dict := store.getD ref []

/-- The merge loop body over references: each batch position mutates its
record object in the store (`record.update(res)` or the sentinel
assignment), exactly as `mergeBatch` does on values. -/
def mergeRefs (store : List Dict) : List Nat → List Dict → List Dict
  | [], _ => store
  | ref :: refs, results =>
    let res := results.headD []
    let merged := if res.isEmpty then sentinelize (storeGet store ref)
                  else dupdate (storeGet store ref) res
    mergeRefs (store.set ref merged) refs (results.drop 1)

/-- The batch loop over references: call the oracle on the current values of
the batch's objects, mutate them in place, and append the same references to
the accumulator. Returns the final store and the accumulator references. -/
def runBatchesRefs (cb : List Dict → List Dict) (store : List Dict) :
    List (List Nat) → List Dict × List Nat
  | [] => (store, [])
  | batch :: rest =>
    let results := cb (batch.map (storeGet store))
    let store2 := mergeRefs store batch results
    let next := runBatchesRefs cb store2 rest
    (next.1, batch ++ next.2)

/-- Embedding of `classify_all` on a fresh run (no checkpoint: the work queue is the whole
input list), at the level of record objects: the input is a list of
references into the store, and the result is the final store together with
the references the returned accumulator holds. -/
def classifyAllRefs (cb : List Dict → List Dict) (store : List Dict)
    (refs : List Nat) (batchSize : Nat) : List Dict × List Nat :=
  if refs.isEmpty then (store, [])
  else runBatchesRefs cb store (chunkList batchSize refs)

/-- The three exact-key checks of `is_duplicate` (`src/utils.py`, lines
42-57): shared id, shared website, or shared normalized phone. `is_duplicate`
is this test or-ed with the city-plus-fuzzy-name test. -/
def sharedExact (rec1 rec2 : Record) : Bool :=
  (rec1.id != "" && rec2.id != "" && rec1.id == rec2.id) ||
  (rec1.website != "" && rec2.website != "" && rec1.website == rec2.website) ||
  (rec1.phone != "" && rec2.phone != "" &&
    (let p1 := normalize_phone rec1.phone.data
     let p2 := normalize_phone rec2.phone.data
     !p1.isEmpty && !p2.isEmpty && p1 == p2))

/-- The legal-suffix alternatives ordered by decreasing length (ties cannot
both be suffixes of one string unless equal, so their order is immaterial). -/
def legalSuffixByLen : List (List Char) :=
  ["s.a.r.l".data, "gmbh".data, "eurl".data, "ltd".data, "inc".data,
   "srl".data, "sas".data, "ag".data, "sa".data]

/-- Strip, from the end of `l`, the first alternative of `alts` that is a
suffix of `l` (checking `alts` in order). With `alts = legalSuffixByLen`
this is "remove the longest legal suffix the string ends with, if any" —
the specification-level description of what the anchored regex does. -/
def stripFirstSuffix (alts : List (List Char)) (l : List Char) : List Char :=
  match alts with
  | [] => l
  | w :: ws =>
    if w.isSuffixOf l then l.take (l.length - w.length)
    else stripFirstSuffix ws l

/-- The amended specification of `normalize_company_name`: lowercase, trim
and collapse whitespace, then — whenever the resulting string *ends with*
one of `gmbh`, `ltd`, `inc`, `ag`, `sa`, `srl`, `sas`, `s.a.r.l`, `eurl`
(raw suffix match, not whole-token match, and the dotted `s.a.r.l` rather
than `sarl`) — remove the longest such suffix, then collapse and trim
again. -/
def normalizeNameAmendedSpec (name : List Char) : List Char :=
  pyStrip (collapseWS (stripFirstSuffix legalSuffixByLen
    (collapseWS (pyStrip (name.map pyLower)))))

/-- Whether `w` occurs as the final whitespace-delimited token of `l` (which, at the
point of use, has already been whitespace-collapsed): either `l` is exactly
`w`, or `l` ends in a space followed by `w`. -/
def endsWithToken (l w : List Char) : Bool :=
  l == w || (' ' :: w).isSuffixOf l

/-- The claim-level specification of the suffix step of
`normalize_company_name`: strip a legal-entity suffix drawn from the claim's
closed set (including plain `sarl`) when and only when it occurs as the
final whitespace-delimited token of the name. -/
def stripTokenSuffixClaim (l : List Char) : List Char :=
  let claimSet : List (List Char) :=
    ["gmbh".data, "ltd".data, "inc".data, "ag".data, "sa".data,
     "srl".data, "sas".data, "sarl".data, "eurl".data]
  match claimSet.find? (endsWithToken l) with
  | some w => l.take (l.length - w.length)
  | none => l

/-- The claim-level specification of `normalize_company_name` as a whole:
lowercase, trim, collapse, strip a trailing legal-entity *token*, collapse
and trim again. -/
def normalizeNameClaimSpec (name : List Char) : List Char :=
  pyStrip (collapseWS (stripTokenSuffixClaim
    (collapseWS (pyStrip (name.map pyLower)))))

/-! Concrete records for the final filter/sort example (scores 9, 4, 7, 7). -/

def exScore9 : Dict := [("id", "a"), ("priority_score", "9")]

def exScore4 : Dict := [("id", "b"), ("priority_score", "4")]

def exScore7a : Dict := [("id", "c"), ("priority_score", "7")]

def exScore7b : Dict := [("id", "d"), ("priority_score", "7")]

/-! Concrete data used by the witness theorems. -/

/-- A similarity oracle for the non-transitivity witness: alpha-gamma score
50, every other pair 90. -/
def simWitness (x y : List Char) : Nat :=
  if x == "alpha".data && y == "gamma".data then 50 else 90

def recAlpha : Record := ⟨"", "", "", "berlin", "alpha"⟩

def recBeta : Record := ⟨"", "", "", "berlin", "beta"⟩

def recGamma : Record := ⟨"", "", "", "berlin", "gamma"⟩

/-- A batch of ten records for the alignment witness. -/
def batchTen : List Dict :=
  [[("id", "1")], [("id", "2")], [("id", "3")], [("id", "4")], [("id", "5")],
   [("id", "6")], [("id", "7")], [("id", "8")], [("id", "9")], [("id", "10")]]

/-- Seven truthy enrichment results for the alignment witness. -/
def resultsSeven : List Dict :=
  [[("priority_score", "1")], [("priority_score", "2")], [("priority_score", "3")],
   [("priority_score", "4")], [("priority_score", "5")], [("priority_score", "6")],
   [("priority_score", "7")]]

/-- A concrete enrichment-only oracle for the resume witness. -/
def cbWitness (batch : List Dict) : List Dict :=
  List.replicate batch.length [("priority_score", "9")]

/-- Two concrete input records for the resume witness. -/
def recordsWitness : List Dict :=
  [[("id", "x"), ("company_name", "Acme"), ("city", "Berlin")],
   [("id", "y"), ("company_name", "Bravo"), ("city", "Bonn")]]

/-! ## Lemmas about the Deduplicator -/

theorem deduplicate_nil (sim : List Char → List Char → Nat) (T : Nat) :
    deduplicate sim T [] = [] := by
  rw [deduplicate]

theorem deduplicate_cons (sim : List Char → List Char → Nat) (T : Nat)
    (rec : Record) (rest : List Record) :
    deduplicate sim T (rec :: rest) =
      rec :: deduplicate sim T
        (rest.filter (fun other => !is_duplicate sim T rec other)) := by
  rw [deduplicate]

/-- The Deduplicator's output is a subsequence of its input. -/
theorem dedup_sublist (sim : List Char → List Char → Nat) (T : Nat)
    (l : List Record) : List.Sublist (deduplicate sim T l) l := by
  induction l using deduplicate.induct sim T with
  | case1 => rw [deduplicate_nil]
  | case2 rec rest ih =>
    rw [deduplicate_cons]
    exact ((ih.trans (List.filter_sublist _)).cons₂ rec)

/-- Any two survivors, in output order, are not duplicates of each other:
each later survivor was directly compared with (and not matched by) each
earlier one. -/
theorem dedup_pairwise (sim : List Char → List Char → Nat) (T : Nat)
    (l : List Record) :
    (deduplicate sim T l).Pairwise
      (fun a b => is_duplicate sim T a b = false) := by
  induction l using deduplicate.induct sim T with
  | case1 => rw [deduplicate_nil]; exact List.Pairwise.nil
  | case2 rec rest ih =>
    rw [deduplicate_cons]
    refine List.Pairwise.cons (fun b hb => ?_) ih
    have hmem : b ∈ rest.filter (fun other => !is_duplicate sim T rec other) :=
      (dedup_sublist sim T _).subset hb
    have := (List.mem_filter.mp hmem).2
    simpa using this

/-- A list whose elements are pairwise non-duplicates passes through the
Deduplicator unchanged. -/
theorem dedup_of_pairwise (sim : List Char → List Char → Nat) (T : Nat)
    (l : List Record) :
    l.Pairwise (fun a b => is_duplicate sim T a b = false) →
    deduplicate sim T l = l := by
  induction l using deduplicate.induct sim T with
  | case1 => intro _; rw [deduplicate_nil]
  | case2 rec rest ih =>
    intro h
    have hall : ∀ other ∈ rest, (!is_duplicate sim T rec other) = true := by
      intro other hother
      have := (List.pairwise_cons.mp h).1 other hother
      simp [this]
    rw [deduplicate_cons, List.filter_eq_self.mpr hall]
    rw [List.filter_eq_self.mpr hall] at ih
    rw [ih (List.pairwise_cons.mp h).2]

/-- The function `is_duplicate` is the exact-key test or-ed with the city-and-fuzzy-name
test. -/
theorem is_duplicate_eq (sim : List Char → List Char → Nat) (T : Nat)
    (rec1 rec2 : Record) :
    is_duplicate sim T rec1 rec2 =
      (sharedExact rec1 rec2 ||
        (rec1.city != "" && rec2.city != "" &&
          pyLowerStr rec1.city == pyLowerStr rec2.city &&
          fuzzy_match_names sim rec1.company_name.data rec2.company_name.data T)) := by
  simp [is_duplicate, sharedExact, Bool.or_assoc]

/-- C2 — Dedup non-transitivity: with records A, B, C in that order, in the
same non-empty city, sharing no exact key pairwise, where the fuzzy name
similarity of A,B and of B,C reaches the threshold but that of A,C does not,
deduplication keeps exactly A and C — and for the claim's stated reason: A
does match B (so B is suppressed by A), A does not match C, and the
suppressed B is never compared against C. -/
theorem claim_dedup_non_transitivity
    (sim : List Char → List Char → Nat) (T : Nat) (A B C : Record)
    (hcityA : A.city ≠ "") (hcityAB : A.city = B.city) (hcityBC : B.city = C.city)
    (hAB : sharedExact A B = false) (hAC : sharedExact A C = false)
    (hBC : sharedExact B C = false)
    (hsAB : T ≤ sim (normalize_company_name A.company_name.data)
                    (normalize_company_name B.company_name.data))
    (hsBC : T ≤ sim (normalize_company_name B.company_name.data)
                    (normalize_company_name C.company_name.data))
    (hsAC : sim (normalize_company_name A.company_name.data)
                (normalize_company_name C.company_name.data) < T) :
    is_duplicate sim T A B = true ∧
    is_duplicate sim T A C = false ∧
    deduplicate sim T [A, B, C] = [A, C] := by
  have hBcity : B.city ≠ "" := hcityAB ▸ hcityA
  have hCcity : C.city ≠ "" := hcityBC ▸ hBcity
  have hdupAB : is_duplicate sim T A B = true := by
    rw [is_duplicate_eq]
    have : pyLowerStr A.city == pyLowerStr B.city := by rw [hcityAB]; simp
    simp [fuzzy_match_names, hcityA, hBcity, this, hsAB]
  have hdupAC : is_duplicate sim T A C = false := by
    rw [is_duplicate_eq, hAC]
    have hfuzz : fuzzy_match_names sim A.company_name.data C.company_name.data T = false := by
      simp [fuzzy_match_names, Nat.not_le.mpr hsAC]
    simp [hfuzz]
  have hfilter : [B, C].filter (fun other => !is_duplicate sim T A other) = [C] := by
    simp [List.filter, hdupAB, hdupAC]
  refine ⟨hdupAB, hdupAC, ?_⟩
  rw [deduplicate_cons, hfilter, deduplicate_cons]
  simp [deduplicate_nil]

/-- C6 — Dedup idempotence: deduplicating the Deduplicator's own output with
the same threshold returns that output unchanged. -/
theorem claim_dedup_idempotent (sim : List Char → List Char → Nat) (T : Nat)
    (l : List Record) :
    deduplicate sim T (deduplicate sim T l) = deduplicate sim T l :=
  dedup_of_pairwise sim T _ (dedup_pairwise sim T l)

/-- C9 — Dedup order preservation: the output is a subsequence of the input
(so every output record is an input record and relative order is kept), and
it holds one representative per cluster — no output record is a duplicate of
an earlier one, each survivor being the first-encountered member of its
cluster. -/
theorem claim_dedup_order_preservation (sim : List Char → List Char → Nat)
    (T : Nat) (l : List Record) :
    List.Sublist (deduplicate sim T l) l ∧
    (deduplicate sim T l).Pairwise (fun a b => is_duplicate sim T a b = false) :=
  ⟨dedup_sublist sim T l, dedup_pairwise sim T l⟩





/-- Witness for C2 at a concrete input: three same-city records with
similarities 90, 90, 50 against threshold 85 deduplicate to the first and
third, the first matching the second but not the third. -/
theorem claim_dedup_non_transitivity_witness :
    is_duplicate simWitness 85 recAlpha recBeta = true ∧
    is_duplicate simWitness 85 recAlpha recGamma = false ∧
    deduplicate simWitness 85 [recAlpha, recBeta, recGamma] = [recAlpha, recGamma] :=
  claim_dedup_non_transitivity simWitness 85 recAlpha recBeta recGamma
    (by decide) (by decide) (by decide) (by decide) (by decide) (by decide)
    (by decide) (by decide) (by decide)

/-! ## Lemmas about name normalization -/

/-- When none of the candidate suffixes equals the whole string, the head
character passes through `stripFirstSuffix` untouched. -/
theorem stripFirstSuffix_cons_of_ne (ws : List (List Char)) (c : Char)
    (rest : List Char) (h : ∀ w ∈ ws, w ≠ c :: rest) :
    stripFirstSuffix ws (c :: rest) = c :: stripFirstSuffix ws rest := by
  induction ws with
  | nil => rfl
  | cons w ws ih =>
    have hne : w ≠ c :: rest := h w (by simp)
    rw [stripFirstSuffix, stripFirstSuffix]
    by_cases hw : w.isSuffixOf (c :: rest)
    · have hsuf : w <:+ rest := by
        rcases List.suffix_cons_iff.mp (List.isSuffixOf_iff_suffix.mp hw) with h1 | h1
        · exact absurd h1 hne
        · exact h1
      have hlen : w.length ≤ rest.length := hsuf.length_le
      rw [if_pos hw, if_pos (List.isSuffixOf_iff_suffix.mpr hsuf)]
      have : (c :: rest).length - w.length = (rest.length - w.length) + 1 := by
        simp only [List.length_cons]; omega
      rw [this, List.take_succ_cons]
    · have hw2 : ¬ w.isSuffixOf rest := by
        intro hsub
        exact hw (List.isSuffixOf_iff_suffix.mpr
          ((List.isSuffixOf_iff_suffix.mp hsub).trans (List.suffix_cons c rest)))
      rw [if_neg hw, if_neg hw2]
      exact ih (fun v hv => h v (by simp [hv]))

/-- The anchored-regex suffix removal (leftmost position whose remainder is
an alternative) agrees with "remove the longest legal suffix the string ends
with": scanning positions left to right finds the longest matching suffix
first, and at most one alternative can match at a given position. -/
theorem stripReSuffix_eq_stripFirstSuffix (l : List Char) :
    stripReSuffix l = stripFirstSuffix legalSuffixByLen l := by
  induction l with
  | nil => decide
  | cons c rest ih =>
    by_cases hmem : (c :: rest) ∈ legalSuffixAlts
    · simp only [legalSuffixAlts, List.mem_cons, List.not_mem_nil, or_false] at hmem
      rcases hmem with h | h | h | h | h | h | h | h | h <;> rw [h] <;> decide
    · rw [stripReSuffix, if_neg hmem, ih, stripFirstSuffix_cons_of_ne]
      intro w hw
      simp only [legalSuffixByLen, List.mem_cons, List.not_mem_nil, or_false] at hw
      rcases hw with h | h | h | h | h | h | h | h | h <;>
        (subst h; intro heq; apply hmem; rw [← heq]; decide)

/-- C5 (amended) — Name normalization: `normalize_company_name` lowercases,
trims, collapses internal whitespace, then removes the longest *raw* suffix
of the string drawn from `gmbh`, `ltd`, `inc`, `ag`, `sa`, `srl`, `sas`,
`s.a.r.l`, `eurl` whenever the string merely ends with it — no token
boundary is required (a final word ending in the letters is clipped), plain
`sarl` is not in the set (only the dotted `s.a.r.l` is) — and finally
re-collapses and trims. -/
theorem claim_name_normalization_amended (name : List Char) :
    normalize_company_name name = normalizeNameAmendedSpec name := by
  simp only [normalize_company_name, normalizeNameAmendedSpec,
    stripReSuffix_eq_stripFirstSuffix]

/-- C5 counterexample — the claim's whole-token reading is false on the
code: `"Montag"` normalizes to `"mont"` (the claim's reading keeps
`"montag"` intact), and `"Acme sarl"` keeps its `sarl` token (the claim's
reading strips it), so the code differs from the claim-level specification
at both inputs. -/
theorem claim_name_normalization_counterexample :
    normalize_company_name "Montag".data = "mont".data ∧
    normalizeNameClaimSpec "Montag".data = "montag".data ∧
    normalize_company_name "Montag".data ≠ normalizeNameClaimSpec "Montag".data ∧
    normalize_company_name "Acme sarl".data = "acme sarl".data ∧
    normalizeNameClaimSpec "Acme sarl".data = "acme".data ∧
    normalize_company_name "Acme sarl".data ≠ normalizeNameClaimSpec "Acme sarl".data := by
  refine ⟨by decide, by decide, by decide, by decide, by decide, by decide⟩

/-! ## Lemmas about the batch merge loop -/

/-- With no results at all, every record of the batch gets the sentinel. -/
theorem mergeBatch_nil_results (batch : List Dict) :
    mergeBatch batch [] = batch.map sentinelize := by
  induction batch with
  | nil => rfl
  | cons rec recs ih => rw [mergeBatch]; simp [ih]

/-- One-step equation of the value-level merge loop. -/
theorem mergeBatch_cons (rec : Dict) (recs results : List Dict) :
    mergeBatch (rec :: recs) results =
      (if (results.headD []).isEmpty then sentinelize rec
       else dupdate rec (results.headD [])) :: mergeBatch recs (results.drop 1) := rfl

/-- The merge loop in closed form, when every returned result is a non-empty
(truthy) object: position `j` of the batch is merged with result `j` for
`j` below the result count, and every later position gets the sentinel. -/
theorem mergeBatch_eq (batch results : List Dict)
    (hres : ∀ res ∈ results, res ≠ ([] : Dict)) :
    mergeBatch batch results =
      (List.zipWith dupdate (batch.take results.length) results) ++
      (batch.drop results.length).map sentinelize := by
  induction batch generalizing results with
  | nil => rw [mergeBatch]; simp
  | cons rec recs ih =>
    cases results with
    | nil =>
      rw [mergeBatch]
      simp [mergeBatch_nil_results]
    | cons res rest =>
      have hne : res ≠ ([] : Dict) := hres res (by simp)
      have hempty : res.isEmpty = false := by
        cases res with
        | nil => exact absurd rfl hne
        | cons kv tail => rfl
      rw [mergeBatch]
      simp only [List.headD_cons, hempty, Bool.false_eq_true, if_false,
        List.drop_succ_cons, List.drop_zero, List.length_cons,
        List.take_succ_cons, List.zipWith_cons_cons, List.cons_append]
      exact congrArg _ (ih rest (fun x hx => hres x (by simp [hx])))

/-- C3 — Batch merge alignment: when the oracle's response list holds only
`k < n` truthy enrichment objects for a batch of `n` records, the merge step
merges result `j` onto record `j` for each `j < k`, marks the remaining
`n − k` records with the fixed sentinel recommendation, keeps the batch's
full length with no index shift, and the batch loop appends all `n` records
to the accumulator in batch order. -/
theorem claim_batch_merge_alignment (batch results : List Dict)
    (hres : ∀ res ∈ results, res ≠ ([] : Dict))
    (hk : results.length < batch.length) :
    (mergeBatch batch results).length = batch.length ∧
    mergeBatch batch results =
      (List.zipWith dupdate (batch.take results.length) results) ++
      (batch.drop results.length).map sentinelize ∧
    (∀ (cb : List Dict → List Dict) (acc : List Dict), cb batch = results →
      (runBatches cb acc [batch]).1 = acc ++ mergeBatch batch results) := by
  refine ⟨?_, mergeBatch_eq batch results hres, ?_⟩
  · rw [mergeBatch_eq batch results hres]
    simp only [List.length_append, List.length_zipWith, List.length_take,
      List.length_map, List.length_drop]
    omega
  · intro cb acc hcb
    simp [runBatches, hcb]



/-- Witness for C3: a batch of 10 with 7 response elements yields 7 merged
and 3 sentinel-marked records, appended in order. -/
theorem claim_batch_merge_alignment_witness :
    (mergeBatch batchTen resultsSeven).length = batchTen.length ∧
    mergeBatch batchTen resultsSeven =
      (List.zipWith dupdate (batchTen.take resultsSeven.length) resultsSeven) ++
      (batchTen.drop resultsSeven.length).map sentinelize ∧
    (∀ (cb : List Dict → List Dict) (acc : List Dict), cb batchTen = resultsSeven →
      (runBatches cb acc [batchTen]).1 = acc ++ mergeBatch batchTen resultsSeven) :=
  claim_batch_merge_alignment batchTen resultsSeven (by decide) (by decide)

/-- When the batch length is used as the replication count, the merge turns
every record into its sentinel-marked version. -/
theorem mergeBatch_replicate_empty (batch : List Dict) :
    mergeBatch batch (List.replicate batch.length ([] : Dict)) =
      batch.map sentinelize := by
  induction batch with
  | nil => rfl
  | cons rec recs ih =>
    rw [List.length_cons, List.replicate_succ, mergeBatch]
    simp [ih]

/-- The shape-aware merge loop agrees with the abstract merge loop on a
well-shaped response — a JSON array of objects — from any starting
position. -/
theorem mergeBatchShapedAux_arr_obj (ds : List Dict) (batch : List Dict)
    (j : Nat) :
    mergeBatchShapedAux (PyResp.arr (ds.map RespElem.eobj)) batch j =
      Except.ok (mergeBatch batch (ds.drop j)) := by
  induction batch generalizing j with
  | nil => rfl
  | cons rec recs ih =>
    have hhead : (ds.drop j).headD [] = ds.getD j [] := by
      rw [List.headD_eq_head?, List.head?_drop, List.getD_eq_getElem?_getD]
    have hdrop1 : (ds.drop j).drop 1 = ds.drop (j + 1) := by
      rw [List.drop_drop]
    rw [mergeBatch_cons, hhead, hdrop1]
    by_cases hj : j < ds.length
    · have hget : (ds.map RespElem.eobj).getD j (RespElem.eobj []) =
          RespElem.eobj (ds.getD j []) := by
        rw [List.getD_eq_getElem?_getD, List.getD_eq_getElem?_getD,
          List.getElem?_map]
        cases ds[j]? <;> rfl
      simp only [mergeBatchShapedAux, pyRespLen, pyRespIndex,
        List.length_map, hj, if_true, hget, ih]
      by_cases hde : (ds.getD j []).isEmpty
      · have hC : ds[j]?.getD [] = ([] : Dict) := by
          rw [← List.getD_eq_getElem?_getD]
          exact List.isEmpty_iff.mp hde
        simp [elemTruthy, hde, sentinelize, hC]
      · have hC : ¬ (ds[j]?.getD [] = ([] : Dict)) := by
          rw [← List.getD_eq_getElem?_getD]
          exact fun h => hde (List.isEmpty_iff.mpr h)
        simp [elemTruthy, hde, elemUpdate, hC]
    · have hC : ds[j]?.getD [] = ([] : Dict) := by
        rw [List.getElem?_eq_none (Nat.le_of_not_lt hj)]
        rfl
      simp only [mergeBatchShapedAux, pyRespLen, pyRespIndex,
        List.length_map, hj, if_false, ih]
      simp [elemTruthy, sentinelize, hC]

/-- The shape-aware merge loop agrees with the abstract merge loop on a
JSON array of objects. -/
theorem mergeBatchShaped_arr_obj (batch ds : List Dict) :
    mergeBatchShaped batch (PyResp.arr (ds.map RespElem.eobj)) =
      Except.ok (mergeBatch batch ds) := by
  rw [mergeBatchShaped, mergeBatchShapedAux_arr_obj, List.drop_zero]

/-- A parsed JSON number aborts the merge loop at once: `len()` raises. -/
theorem mergeBatchShaped_jnum (rec : Dict) (recs : List Dict) (n : Int) :
    mergeBatchShaped (rec :: recs) (PyResp.jnum n) =
      Except.error "TypeError: object of type int has no len()" := rfl

/-- A parsed non-empty JSON object aborts the merge loop: `batch_results[0]`
raises `KeyError`. -/
theorem mergeBatchShaped_obj (rec : Dict) (recs : List Dict) (d : Dict)
    (hd : d ≠ []) :
    mergeBatchShaped (rec :: recs) (PyResp.obj d) = Except.error "KeyError" := by
  rw [mergeBatchShaped, mergeBatchShapedAux]
  have h0 : 0 < d.length := List.length_pos.mpr hd
  simp [pyRespLen, pyRespIndex, h0, Except.bind]

/-- A parsed non-empty JSON string aborts the merge loop: its first
character is truthy and `record.update` on a string raises `ValueError`. -/
theorem mergeBatchShaped_jstr (rec : Dict) (recs : List Dict) (s : String)
    (hs : s ≠ "") :
    mergeBatchShaped (rec :: recs) (PyResp.jstr s) =
      Except.error "ValueError: dictionary update sequence element has length 1" := by
  rw [mergeBatchShaped, mergeBatchShapedAux]
  have hdata : s.data ≠ [] := fun h => hs (by cases s; simp_all)
  have h0 : 0 < s.length := by
    cases s with
    | mk data =>
      cases data with
      | nil => exact absurd rfl hdata
      | cons c cs => simp [String.length]
  have hne : ∀ c : Char, (String.mk [c] = "") = False := fun c => by
    simp [String.ext_iff]
  simp [pyRespLen, pyRespIndex, h0, elemTruthy, elemUpdate, hne]

/-- A parsed JSON array whose first element is truthy but not an object
aborts the merge loop: `record.update` raises on a string or a number. -/
theorem mergeBatchShaped_arr_badElem (rec : Dict) (recs : List Dict)
    (e : RespElem) (elems : List RespElem) (htruthy : elemTruthy e = true)
    (hbad : ∀ d, e ≠ RespElem.eobj d) :
    ∃ msg, mergeBatchShaped (rec :: recs) (PyResp.arr (e :: elems)) =
      Except.error msg := by
  rw [mergeBatchShaped, mergeBatchShapedAux]
  have h0 : 0 < (e :: elems).length := by simp
  cases e with
  | eobj d => exact absurd rfl (hbad d)
  | estr s =>
    have hne : (s == "") = false := by simpa [elemTruthy] using htruthy
    refine ⟨"ValueError: dictionary update sequence element has length 1", ?_⟩
    simp [pyRespLen, pyRespIndex, h0, htruthy, elemUpdate, hne, Except.bind]
  | enum n =>
    refine ⟨"TypeError: int object is not iterable", ?_⟩
    simp [pyRespLen, pyRespIndex, h0, htruthy, elemUpdate, Except.bind]

/-- C4 counterexample — "a malformed response degrades to the sentinel and
the run is never aborted" is false on the code: a response that parses as
the JSON string `"oops"` (malformed but parseable, so nothing raises inside
the `try` of `classify_batch`) is returned unchecked, and the merge loop of
`classify_all` then raises an uncaught `ValueError` on its first record —
the batch gets no sentinel and the run aborts before the next batch. -/
theorem claim_oracle_failure_degradation_counterexample :
    classify_batch "key" (fun _ => some (PyResp.jstr "oops")) [[("id", "1")]] =
      PyResp.jstr "oops" ∧
    runBatchesShaped (classify_batch "key" (fun _ => some (PyResp.jstr "oops")))
      [] [[[("id", "1")]], [[("id", "2")]]] =
      Except.error "ValueError: dictionary update sequence element has length 1" :=
  ⟨rfl, rfl⟩

/-- C4 (amended) — Oracle failure degradation: with an API key configured,
if the oracle call for a batch raises a transport error, returns a
non-success status, or returns a body that fails JSON parsing, then every
record of that batch receives the sentinel enrichment, the accumulator
still gains the whole batch, and processing continues with the next batch.
But a response that parses to JSON of the wrong shape escapes the `try` of
`classify_batch` and raises uncaught in `classify_all`'s merge loop,
aborting the run: so for a non-empty batch answered with a number (at
`len`), a non-empty object (at `batch_results[j]`), a non-empty string or
an array headed by a truthy non-object element (at `record.update`). -/
theorem claim_oracle_failure_degradation_amended (apiKey : String)
    (oracle : List Dict → Option PyResp) (hkey : apiKey ≠ "")
    (badBatch : List Dict) (acc : List Dict) (rest : List (List Dict)) :
    (oracle badBatch = none →
      classify_batch apiKey oracle badBatch =
        PyResp.arr (List.replicate badBatch.length (RespElem.eobj [])) ∧
      mergeBatchShaped badBatch (classify_batch apiKey oracle badBatch) =
        Except.ok (badBatch.map sentinelize) ∧
      runBatchesShaped (classify_batch apiKey oracle) acc (badBatch :: rest) =
        (runBatchesShaped (classify_batch apiKey oracle)
          (acc ++ badBatch.map sentinelize) rest).map
          (fun t => (t.1, t.2.1 + 1, t.2.2 + 1))) ∧
    (badBatch ≠ [] →
      (∀ n : Int, oracle badBatch = some (PyResp.jnum n) →
        ∃ msg, runBatchesShaped (classify_batch apiKey oracle) acc
          (badBatch :: rest) = Except.error msg) ∧
      (∀ d : Dict, d ≠ [] → oracle badBatch = some (PyResp.obj d) →
        ∃ msg, runBatchesShaped (classify_batch apiKey oracle) acc
          (badBatch :: rest) = Except.error msg) ∧
      (∀ s : String, s ≠ "" → oracle badBatch = some (PyResp.jstr s) →
        ∃ msg, runBatchesShaped (classify_batch apiKey oracle) acc
          (badBatch :: rest) = Except.error msg) ∧
      (∀ (e : RespElem) (elems : List RespElem), elemTruthy e = true →
        (∀ d, e ≠ RespElem.eobj d) →
        oracle badBatch = some (PyResp.arr (e :: elems)) →
        ∃ msg, runBatchesShaped (classify_batch apiKey oracle) acc
          (badBatch :: rest) = Except.error msg)) := by
  have hcb : ∀ v, oracle badBatch = some v →
      classify_batch apiKey oracle badBatch = v := by
    intro v hv
    unfold classify_batch
    rw [if_neg (by simpa using hkey), hv]
  have habort : ∀ msg, mergeBatchShaped badBatch
      (classify_batch apiKey oracle badBatch) = Except.error msg →
      runBatchesShaped (classify_batch apiKey oracle) acc (badBatch :: rest) =
        Except.error msg := by
    intro msg hmsg
    rw [runBatchesShaped, hmsg]
  constructor
  · intro hbad
    have h1 : classify_batch apiKey oracle badBatch =
        PyResp.arr (List.replicate badBatch.length (RespElem.eobj [])) := by
      unfold classify_batch
      rw [if_neg (by simpa using hkey), hbad]
    have h2 : mergeBatchShaped badBatch (classify_batch apiKey oracle badBatch) =
        Except.ok (badBatch.map sentinelize) := by
      rw [h1, ← List.map_replicate, mergeBatchShaped_arr_obj,
        mergeBatch_replicate_empty]
    refine ⟨h1, h2, ?_⟩
    rw [runBatchesShaped, h2]
    cases hnext : runBatchesShaped (classify_batch apiKey oracle)
        (acc ++ badBatch.map sentinelize) rest <;>
      simp [Except.bind, Except.map, hnext]
  · intro hne
    obtain ⟨rec, recs, rfl⟩ : ∃ rec recs, badBatch = rec :: recs := by
      cases badBatch with
      | nil => exact absurd rfl hne
      | cons rec recs => exact ⟨rec, recs, rfl⟩
    refine ⟨?_, ?_, ?_, ?_⟩
    · intro n hv
      exact ⟨_, habort _ (by rw [hcb _ hv, mergeBatchShaped_jnum])⟩
    · intro d hd hv
      exact ⟨_, habort _ (by rw [hcb _ hv, mergeBatchShaped_obj _ _ _ hd])⟩
    · intro str hstr hv
      exact ⟨_, habort _ (by rw [hcb _ hv, mergeBatchShaped_jstr _ _ _ hstr])⟩
    · intro e elems htruthy hbadel hv
      obtain ⟨msg, hmsg⟩ := mergeBatchShaped_arr_badElem rec recs e elems htruthy hbadel
      exact ⟨msg, habort msg (by rw [hcb _ hv, hmsg])⟩

/-- Witness for C4 (amended): a concrete parse-failing oracle degrades to
sentinels and continues, and a concrete oracle answering the JSON string
`"oops"` aborts the run. -/
theorem claim_oracle_failure_degradation_amended_witness :
    (classify_batch "key" (fun _ => none) [[("id", "1")]] =
      PyResp.arr (List.replicate 1 (RespElem.eobj [])) ∧
     mergeBatchShaped [[("id", "1")]]
        (classify_batch "key" (fun _ => none) [[("id", "1")]]) =
      Except.ok ([[("id", "1")]].map sentinelize) ∧
     runBatchesShaped (classify_batch "key" (fun _ => none))
        [] [[[("id", "1")]], [[("id", "2")]]] =
      (runBatchesShaped (classify_batch "key" (fun _ => none))
        ([] ++ [[("id", "1")]].map sentinelize) [[[("id", "2")]]]).map
        (fun t => (t.1, t.2.1 + 1, t.2.2 + 1))) ∧
    (∃ msg, runBatchesShaped
        (classify_batch "key" (fun _ => some (PyResp.jstr "oops")))
        [] [[[("id", "1")]], [[("id", "2")]]] = Except.error msg) := by
  have h1 := claim_oracle_failure_degradation_amended "key" (fun _ => none)
    (by decide) [[("id", "1")]] [] [[[("id", "2")]]]
  have h2 := claim_oracle_failure_degradation_amended "key"
    (fun _ => some (PyResp.jstr "oops")) (by decide) [[("id", "1")]] []
    [[[("id", "2")]]]
  exact ⟨h1.1 rfl, (h2.2 (by decide)).2.2.1 "oops" (by decide) rfl⟩

/-! ## Lemmas about dictionaries and the resume key -/

/-- Rewriting the value stored at one key leaves lookups of other keys
unchanged. -/
theorem dget_map_replace (d : Dict) (k k2 v : String) (h : k2 ≠ k) :
    dget (d.map (fun kv => if kv.1 == k2 then (k2, v) else kv)) k = dget d k := by
  induction d with
  | nil => rfl
  | cons kv rest ih =>
    unfold dget at ih ⊢
    simp only [List.map_cons]
    by_cases hk2 : kv.1 = k2
    · have e1 : ((if kv.1 == k2 then (k2, v) else kv) : String × String) = (k2, v) := by
        simp [hk2]
      rw [e1, List.find?_cons_of_neg _ (by simpa using h),
        List.find?_cons_of_neg _ (by simp [hk2, h])]
      exact ih
    · have e1 : ((if kv.1 == k2 then (k2, v) else kv) : String × String) = kv := by
        simp [hk2]
      rw [e1]
      by_cases hk : kv.1 = k
      · rw [List.find?_cons_of_pos _ (by simp [hk]),
          List.find?_cons_of_pos _ (by simp [hk])]
      · rw [List.find?_cons_of_neg _ (by simp [hk]),
          List.find?_cons_of_neg _ (by simp [hk])]
        exact ih

/-- Python dictionary assignment at one key leaves lookups of other keys
unchanged. -/
theorem dget_dset_ne (d : Dict) (k k2 v : String) (h : k2 ≠ k) :
    dget (dset d k2 v) k = dget d k := by
  unfold dset
  by_cases hc : d.any (fun kv => kv.1 == k2)
  · rw [if_pos hc]
    exact dget_map_replace d k k2 v h
  · rw [if_neg hc]
    unfold dget
    rw [List.find?_append]
    have : List.find? (fun kv => kv.1 == k) [(k2, v)] = none := by
      simp [List.find?_cons, h]
    rw [this]
    cases List.find? (fun kv => kv.1 == k) d <;> rfl

/-- Python `d.update(e)` leaves lookups of keys outside `e` unchanged. -/
theorem dget_dupdate_ne (e d : Dict) (k : String) (h : ∀ kv ∈ e, kv.1 ≠ k) :
    dget (dupdate d e) k = dget d k := by
  induction e generalizing d with
  | nil => rfl
  | cons kv rest ih =>
    unfold dupdate at *
    rw [List.foldl_cons]
    rw [ih (dset d kv.1 kv.2) (fun x hx => h x (by simp [hx]))]
    exact dget_dset_ne d k kv.1 kv.2 (h kv (by simp))

/-- Merging an enrichment-only response object onto a record does not change
the record's resume key. -/
theorem uid_dupdate (rec res : Dict) (h : enrichmentOnly res) :
    uid (dupdate rec res) = uid rec := by
  unfold uid
  rw [dget_dupdate_ne res rec "id" (fun kv hkv => (h kv hkv).1),
    dget_dupdate_ne res rec "company_name" (fun kv hkv => (h kv hkv).2.1),
    dget_dupdate_ne res rec "city" (fun kv hkv => (h kv hkv).2.2)]

/-- Marking a record with the sentinel recommendation does not change its
resume key. -/
theorem uid_sentinelize (rec : Dict) : uid (sentinelize rec) = uid rec := by
  unfold sentinelize uid
  rw [dget_dset_ne _ _ _ _ (by decide), dget_dset_ne _ _ _ _ (by decide),
    dget_dset_ne _ _ _ _ (by decide)]

/-- The merge loop preserves, record for record, the resume keys of the
batch, provided the oracle's objects carry only enrichment fields. -/
theorem mergeBatch_map_uid (batch results : List Dict)
    (hres : ∀ res ∈ results, enrichmentOnly res) :
    (mergeBatch batch results).map uid = batch.map uid := by
  induction batch generalizing results with
  | nil => rfl
  | cons rec recs ih =>
    rw [mergeBatch]
    cases results with
    | nil =>
      simp only [List.headD_nil, List.isEmpty_nil, if_true, List.drop_nil,
        List.map_cons]
      rw [uid_sentinelize, ih [] (by simp)]
    | cons res rest =>
      simp only [List.headD_cons, List.drop_succ_cons, List.drop_zero,
        List.map_cons]
      have ihr := ih rest (fun x hx => hres x (by simp [hx]))
      by_cases hemp : res.isEmpty
      · simp only [hemp, if_true]
        rw [uid_sentinelize, ihr]
      · have hfalse : res.isEmpty = false := by simpa using hemp
        simp only [hfalse, Bool.false_eq_true, if_false]
        rw [uid_dupdate rec res (hres res (by simp)), ihr]

/-! ## Lemmas about the batch loop and chunking -/

/-- The accumulator returned by the batch loop: the initial accumulator
followed by each batch's merged records, in batch order. -/
theorem runBatches_acc (cb : List Dict → List Dict) (acc : List Dict)
    (chunks : List (List Dict)) :
    (runBatches cb acc chunks).1 =
      acc ++ (chunks.map (fun b => mergeBatch b (cb b))).flatten := by
  induction chunks generalizing acc with
  | nil => simp [runBatches]
  | cons b rest ih =>
    rw [runBatches]
    simp only [List.map_cons, List.flatten_cons]
    rw [ih, List.append_assoc]

/-- Chunking then flattening restores the work queue. -/
theorem chunkList_flatten {α : Type} (bs : Nat) (l : List α) :
    (chunkList bs l).flatten = l := by
  induction l using chunkList.induct bs with
  | case1 => rw [chunkList]; rfl
  | case2 rec rest ih =>
    rw [chunkList]
    simp only [List.flatten_cons, ih]
    rw [List.cons_append, List.take_append_drop]

/-- C1 — Resume round trip: complete a first `classify_all` run with no
checkpoint present, then run `classify_all` again on the same input with
resume enabled against the checkpoint the first run produced. Provided the
oracle returns enrichment-only objects (the spec's oracle boundary — its
responses never rewrite the `id`/`company_name`/`city` fields the resume
key reads) and the batch size is positive, the second run makes zero oracle
calls, performs zero checkpoint writes, and returns exactly the first run's
accumulator — no record duplicated, none dropped. -/
theorem claim_resume_round_trip (cb : List Dict → List Dict)
    (records : List Dict) (bs : Nat) (hbs : 0 < bs)
    (hcb : ∀ batch res, res ∈ cb batch → enrichmentOnly res) :
    (classify_all cb records
        (classify_all cb records none bs true).finalFile bs true).oracleCalls = 0 ∧
    (classify_all cb records
        (classify_all cb records none bs true).finalFile bs true).fileWrites = 0 ∧
    (classify_all cb records
        (classify_all cb records none bs true).finalFile bs true).acc =
      (classify_all cb records none bs true).acc := by
  by_cases hrec : records.isEmpty
  · rw [List.isEmpty_iff.mp hrec]
    refine ⟨rfl, rfl, rfl⟩
  · rcases ht : runBatches cb [] (chunkList bs records) with ⟨acc1, calls1, writes1⟩
    have hrem1 : records.filter
        (fun rec => !((List.map uid ([] : List Dict)).contains (uid rec))) = records := by
      simp
    have hrun1 : classify_all cb records none bs true =
        ⟨acc1, calls1, writes1, some acc1⟩ := by
      unfold classify_all
      simp only [hrem1, ht]
      rw [if_neg (by simpa using hrec)]
    have hacc1 : acc1 =
        ((chunkList bs records).map (fun b => mergeBatch b (cb b))).flatten := by
      have h := runBatches_acc cb [] (chunkList bs records)
      rw [ht] at h
      simpa using h
    have huid : acc1.map uid = records.map uid := by
      rw [hacc1, List.map_flatten, List.map_map]
      have heq : ((chunkList bs records).map
          ((fun l => List.map uid l) ∘ fun b => mergeBatch b (cb b))) =
          (chunkList bs records).map (fun b => List.map uid b) := by
        refine List.map_congr_left (fun b _ => ?_)
        exact mergeBatch_map_uid b (cb b) (fun res hres => hcb b res hres)
      rw [heq, ← List.map_flatten, chunkList_flatten]
    have hfilter : records.filter
        (fun rec => !((List.map uid acc1).contains (uid rec))) = [] := by
      rw [List.filter_eq_nil_iff]
      intro a ha
      have hmem : uid a ∈ acc1.map uid := by
        rw [huid]; exact List.mem_map_of_mem uid ha
      have hc : (List.map uid acc1).contains (uid a) = true := List.elem_iff.mpr hmem
      simp [hc]
      exact List.mem_map.mp hmem
    have hrun2 : classify_all cb records (some acc1) bs true =
        ⟨acc1, 0, 0, some acc1⟩ := by
      unfold classify_all
      simp only [hfilter]
      rfl
    rw [hrun1]
    simp only []
    rw [hrun2]
    exact ⟨rfl, rfl, rfl⟩



/-- Witness for C1 at a concrete oracle, input list and batch size. -/
theorem claim_resume_round_trip_witness :
    (classify_all cbWitness recordsWitness
        (classify_all cbWitness recordsWitness none 1 true).finalFile 1 true).oracleCalls = 0 ∧
    (classify_all cbWitness recordsWitness
        (classify_all cbWitness recordsWitness none 1 true).finalFile 1 true).fileWrites = 0 ∧
    (classify_all cbWitness recordsWitness
        (classify_all cbWitness recordsWitness none 1 true).finalFile 1 true).acc =
      (classify_all cbWitness recordsWitness none 1 true).acc :=
  claim_resume_round_trip cbWitness recordsWitness 1 (by decide)
    (fun batch res hres => by
      have : res = [("priority_score", "9")] := List.eq_of_mem_replicate hres
      rw [this]; decide)

/-! ## CSV writing -/

/-- One-step reduction of the strict CSV writer on a non-empty record
list. -/
theorem save_csv_strict_cons (rec0 : Dict) (tail : List Dict) :
    save_csv_strict (rec0 :: tail) =
      (if (rec0 :: tail).any
          (fun r2 => r2.any (fun kv => !(dkeys rec0).contains kv.1)) then
        Except.error "ValueError: dict contains fields not in fieldnames"
      else Except.ok (some (dkeys rec0, (rec0 :: tail).map (csvRow (dkeys rec0))))) := rfl

/-- C7 counterexample — "extra keys never cause an error" is false for the
`save_csv` copy in `src/horeca_distributor_finder.py`: on a two-record list
whose second record carries a key `b` beyond the header `[a]`, that copy
raises `ValueError` (while the `src/utils.py` copy writes the file, dropping
the extra key). -/
theorem claim_csv_write_shape_counterexample :
    save_csv_strict [[("a", "1")], [("a", "2"), ("b", "3")]] =
      Except.error "ValueError: dict contains fields not in fieldnames" ∧
    save_csv [[("a", "1")], [("a", "2"), ("b", "3")]] =
      some (["a"], [["1"], ["2"]]) := by
  refine ⟨rfl, rfl⟩

/-- C7 (amended) — CSV write shape: for every non-empty record list,
`save_csv` (`src/utils.py`) writes a header equal to the first record's key
list with one row per record; a record missing a header column serializes
that column as the empty string; keys beyond the header are silently dropped
by the `src/utils.py` copy (`extrasaction="ignore"`), but the
`src/horeca_distributor_finder.py` copy, which omits `extrasaction`, raises
`ValueError` whenever any record carries a key beyond the header. -/
theorem claim_csv_write_shape_amended (rec0 : Dict) (rest : List Dict) :
    save_csv (rec0 :: rest) =
      some (dkeys rec0, (rec0 :: rest).map (csvRow (dkeys rec0))) ∧
    (∀ (rec : Dict) (i : Nat), dget rec ((dkeys rec0).getD i "") = none →
      (csvRow (dkeys rec0) rec).getD i "" = "") ∧
    (∀ (rec : Dict) (k v : String), k ∉ dkeys rec0 →
      save_csv (rec0 :: rest ++ [rec ++ [(k, v)]]) =
        save_csv (rec0 :: rest ++ [rec])) ∧
    (∀ (rec : Dict) (k v : String), k ∉ dkeys rec0 →
      save_csv_strict (rec0 :: rest ++ [rec ++ [(k, v)]]) =
        Except.error "ValueError: dict contains fields not in fieldnames") := by
  refine ⟨rfl, ?_, ?_, ?_⟩
  · intro rec i hnone
    unfold csvRow
    rcases hidx : (dkeys rec0)[i]? with _ | f
    · rw [List.getD_eq_getElem?_getD, List.getElem?_map, hidx]
      rfl
    · have hf : (dkeys rec0).getD i "" = f := by
        rw [List.getD_eq_getElem?_getD, hidx]
        rfl
      rw [hf] at hnone
      rw [List.getD_eq_getElem?_getD, List.getElem?_map, hidx]
      simp [hnone]
  · intro rec k v hk
    unfold save_csv
    have hrow : csvRow (dkeys rec0) (rec ++ [(k, v)]) = csvRow (dkeys rec0) rec := by
      unfold csvRow
      refine List.map_congr_left (fun f hf => ?_)
      have hkf : (k == f) = false := by
        simp only [beq_eq_false_iff_ne, ne_eq]
        intro h
        exact hk (h ▸ hf)
      unfold dget
      rw [List.find?_append]
      have hnone : List.find? (fun kv => kv.1 == f) [(k, v)] = none := by
        simp [List.find?_cons, hkf]
      rw [hnone]
      cases List.find? (fun kv => kv.1 == f) rec <;> rfl
    simp [hrow]
  · intro rec k v hk
    have hkc : ((dkeys rec0).contains k) = false := by
      rcases h : (dkeys rec0).contains k with _ | _
      · rfl
      · exact absurd (List.elem_iff.mp h) hk
    have hany : ((rec0 :: rest ++ [rec ++ [(k, v)]]).any
        (fun r2 => r2.any (fun kv => !(dkeys rec0).contains kv.1))) = true := by
      rw [List.any_eq_true]
      refine ⟨rec ++ [(k, v)], by simp, ?_⟩
      rw [List.any_eq_true]
      refine ⟨(k, v), by simp, ?_⟩
      show (!(dkeys rec0).contains k) = true
      rw [hkc]
      rfl
    exact (save_csv_strict_cons rec0 (rest ++ [rec ++ [(k, v)]])).trans (if_pos hany)

/-- Witness for C7 (amended) at a concrete header, record list, and extra
key. -/
theorem claim_csv_write_shape_amended_witness :
    save_csv ([("a", "1")] :: [[("b", "2")]]) =
      some (dkeys [("a", "1")],
        ([("a", "1")] :: [[("b", "2")]]).map (csvRow (dkeys [("a", "1")]))) ∧
    (csvRow (dkeys [("a", "1")]) [("b", "2")]).getD 0 "" = "" ∧
    save_csv ([("a", "1")] :: [[("b", "2")]] ++ [[("b", "2")] ++ [("c", "3")]]) =
      save_csv ([("a", "1")] :: [[("b", "2")]] ++ [[("b", "2")]]) ∧
    save_csv_strict ([("a", "1")] :: [[("b", "2")]] ++ [[("b", "2")] ++ [("c", "3")]]) =
      Except.error "ValueError: dict contains fields not in fieldnames" := by
  obtain ⟨h1, h2, h3, h4⟩ := claim_csv_write_shape_amended [("a", "1")] [[("b", "2")]]
  exact ⟨h1, h2 [("b", "2")] 0 rfl, h3 [("b", "2")] "c" "3" (by decide),
    h4 [("b", "2")] "c" "3" (by decide)⟩

/-! ## Final filter and sort -/

/-- Inserting a record into a list leaves the sublist of records of any
fixed score unchanged, except that a record of that score lands in front:
every record that `orderedInsert` skips over has a strictly larger score. -/
theorem filter_score_orderedInsert (s : Nat) (x : Dict) (l : List Dict) :
    (l.orderedInsert scoreDescOrder x).filter (fun rec => scoreVal rec == s) =
      if scoreVal x == s then x :: l.filter (fun rec => scoreVal rec == s)
      else l.filter (fun rec => scoreVal rec == s) := by
  have hsplit : l.filter (fun rec => scoreVal rec == s) =
      (l.takeWhile fun b => decide ¬ scoreDescOrder x b).filter
        (fun rec => scoreVal rec == s) ++
      (l.dropWhile fun b => decide ¬ scoreDescOrder x b).filter
        (fun rec => scoreVal rec == s) := by
    rw [← List.filter_append, List.takeWhile_append_dropWhile]
  rw [List.orderedInsert_eq_take_drop, List.filter_append, List.filter_cons]
  by_cases hx : (scoreVal x == s) = true
  · have htake : (l.takeWhile fun b => decide ¬ scoreDescOrder x b).filter
        (fun rec => scoreVal rec == s) = [] := by
      rw [List.filter_eq_nil_iff]
      intro b hb
      have hgt := List.mem_takeWhile_imp hb
      simp only [decide_eq_true_eq, scoreDescOrder, Nat.not_le] at hgt
      have hxs : scoreVal x = s := by simpa using hx
      simp only [beq_iff_eq]
      omega
    rw [if_pos hx, if_pos hx, hsplit, htake]
    simp
  · have hxf : (scoreVal x == s) = false := by simpa using hx
    rw [hxf]
    simp only [Bool.false_eq_true, if_false]
    rw [hsplit]

/-- The insertion sort under the descending score comparison is stable: the
subsequence of records of any fixed score is exactly what it was in the
input. -/
theorem filter_score_insertionSort (s : Nat) (l : List Dict) :
    (l.insertionSort scoreDescOrder).filter (fun rec => scoreVal rec == s) =
      l.filter (fun rec => scoreVal rec == s) := by
  induction l with
  | nil => rfl
  | cons x xs ih =>
    rw [List.insertionSort, filter_score_orderedInsert, ih, List.filter_cons]

/-- C8 — Final filter and sort: the orchestrators keep exactly the records
passing the `priority_score ≥ 7` filter (as a permutation of the filtered
list), in descending score order, with records of equal score in their
original relative order; and on scores 9, 4, 7, 7 the result is the score-9
record followed by the two score-7 records in input order. -/
theorem claim_final_filter_sort (records : List Dict) :
    (finalFilterSort records).Perm (records.filter keepHighPriority) ∧
    (finalFilterSort records).Pairwise scoreDescOrder ∧
    (∀ s : Nat, (finalFilterSort records).filter (fun rec => scoreVal rec == s) =
      (records.filter keepHighPriority).filter (fun rec => scoreVal rec == s)) ∧
    finalFilterSort [exScore9, exScore4, exScore7a, exScore7b] =
      [exScore9, exScore7a, exScore7b] := by
  haveI : IsTotal Dict scoreDescOrder :=
    ⟨fun a b => Nat.le_total (scoreVal b) (scoreVal a)⟩
  haveI : IsTrans Dict scoreDescOrder :=
    ⟨fun _ _ _ hab hbc => Nat.le_trans hbc hab⟩
  refine ⟨List.perm_insertionSort scoreDescOrder _, ?_, ?_, by decide⟩
  · exact List.sorted_insertionSort scoreDescOrder _
  · intro s
    exact filter_score_insertionSort s _

/-! ## The merge loop at the level of record objects -/

/-- Overwriting one store cell leaves every other reference's value
unchanged. -/
theorem storeGet_set_ne (store : List Dict) (ref i : Nat) (v : Dict)
    (h : i ≠ ref) : storeGet (store.set ref v) i = storeGet store i := by
  unfold storeGet
  rw [List.getD_eq_getElem?_getD, List.getD_eq_getElem?_getD,
    List.getElem?_set_ne (fun h2 => h h2.symm)]

/-- Dereferencing the cell just written yields the written value (for an
in-range reference). -/
theorem storeGet_set_self (store : List Dict) (ref : Nat) (v : Dict)
    (h : ref < store.length) : storeGet (store.set ref v) ref = v := by
  unfold storeGet
  rw [List.getD_eq_getElem?_getD, List.getElem?_set_self h]
  rfl

/-- One-step equation of the reference-level merge loop. -/
theorem mergeRefs_cons (store : List Dict) (ref : Nat) (refs : List Nat)
    (results : List Dict) :
    mergeRefs store (ref :: refs) results =
      mergeRefs (store.set ref
        (if (results.headD []).isEmpty then sentinelize (storeGet store ref)
         else dupdate (storeGet store ref) (results.headD []))) refs
        (results.drop 1) := rfl

/-- The in-place merge of one batch: it preserves the heap size, touches no
record object outside the batch, and the values seen through the batch's own
references afterwards are exactly `mergeBatch` of the values before. -/
theorem mergeRefs_spec (batch : List Nat) (results : List Dict)
    (store : List Dict) (hnd : batch.Nodup)
    (hvalid : ∀ ref ∈ batch, ref < store.length) :
    (mergeRefs store batch results).length = store.length ∧
    (∀ i, i ∉ batch → storeGet (mergeRefs store batch results) i = storeGet store i) ∧
    batch.map (storeGet (mergeRefs store batch results)) =
      mergeBatch (batch.map (storeGet store)) results := by
  induction batch generalizing store results with
  | nil => exact ⟨rfl, fun i _ => rfl, rfl⟩
  | cons ref refs ih =>
    obtain ⟨hnd1, hnd2⟩ := List.nodup_cons.mp hnd
    have hreflen : ref < store.length := hvalid ref (by simp)
    rw [mergeRefs_cons]
    set merged := if (results.headD []).isEmpty then sentinelize (storeGet store ref)
                  else dupdate (storeGet store ref) (results.headD []) with hm
    have hvalid2 : ∀ p ∈ refs, p < (store.set ref merged).length := by
      rw [List.length_set]
      exact fun p hp => hvalid p (by simp [hp])
    obtain ⟨ihlen, ihframe, ihmap⟩ := ih (results.drop 1) (store.set ref merged) hnd2 hvalid2
    refine ⟨?_, ?_, ?_⟩
    · rw [ihlen, List.length_set]
    · intro i hi
      have hi1 : i ≠ ref := fun h => hi (by simp [h])
      have hi2 : i ∉ refs := fun h => hi (by simp [h])
      rw [ihframe i hi2, storeGet_set_ne store ref i merged hi1]
    · rw [List.map_cons, List.map_cons, mergeBatch_cons]
      have hhead : storeGet (mergeRefs (store.set ref merged) refs (results.drop 1)) ref =
          merged := by
        rw [ihframe ref hnd1, storeGet_set_self store ref merged hreflen]
      have hmapset : refs.map (storeGet (store.set ref merged)) =
          refs.map (storeGet store) :=
        List.map_congr_left
          (fun p hp => storeGet_set_ne store ref p merged (fun h => hnd1 (h ▸ hp)))
      rw [hhead, ihmap, hmapset, hm]

/-- The batch loop at the level of record objects: the accumulator is the
very references that came in, in order; objects outside the work queue are
untouched; and the values the caller's references see afterwards are
exactly the value-level merge loop's output on the values before. -/
theorem runBatchesRefs_spec (cb : List Dict → List Dict)
    (chunks : List (List Nat)) (store : List Dict)
    (hnd : chunks.flatten.Nodup)
    (hvalid : ∀ ref ∈ chunks.flatten, ref < store.length) :
    (runBatchesRefs cb store chunks).2 = chunks.flatten ∧
    (runBatchesRefs cb store chunks).1.length = store.length ∧
    (∀ i, i ∉ chunks.flatten →
      storeGet (runBatchesRefs cb store chunks).1 i = storeGet store i) ∧
    chunks.flatten.map (storeGet (runBatchesRefs cb store chunks).1) =
      (chunks.map (fun b =>
        mergeBatch (b.map (storeGet store)) (cb (b.map (storeGet store))))).flatten := by
  induction chunks generalizing store with
  | nil => exact ⟨rfl, rfl, fun i _ => rfl, rfl⟩
  | cons batch rest ih =>
    rw [List.flatten_cons] at hnd hvalid
    obtain ⟨hndb, hndr, hdisj⟩ := List.nodup_append.mp hnd
    have hvb : ∀ ref ∈ batch, ref < store.length :=
      fun ref h => hvalid ref (List.mem_append_left _ h)
    have hvr : ∀ ref ∈ rest.flatten, ref < store.length :=
      fun ref h => hvalid ref (List.mem_append_right _ h)
    simp only [runBatchesRefs]
    set results := cb (batch.map (storeGet store)) with hresults
    obtain ⟨mlen, mframe, mmap⟩ := mergeRefs_spec batch results store hndb hvb
    set store2 := mergeRefs store batch results with hstore2
    have hvr2 : ∀ ref ∈ rest.flatten, ref < store2.length := by
      rw [mlen]; exact hvr
    obtain ⟨ihacc, ihlen, ihframe, ihmap⟩ := ih store2 hndr hvr2
    have hchunkvals : ∀ b ∈ rest, b.map (storeGet store2) = b.map (storeGet store) := by
      intro b hb
      refine List.map_congr_left (fun p hp => ?_)
      refine mframe p (fun hpb => ?_)
      exact hdisj hpb (by
        rw [List.mem_flatten]
        exact ⟨b, hb, hp⟩)
    refine ⟨?_, ?_, ?_, ?_⟩
    · rw [List.flatten_cons, ihacc]
    · rw [ihlen, mlen]
    · intro i hi
      rw [List.flatten_cons, List.mem_append] at hi
      push_neg at hi
      rw [ihframe i hi.2, mframe i hi.1]
    · rw [List.flatten_cons, List.map_append, List.map_cons, List.flatten_cons]
      have hbatchpart : batch.map (storeGet (runBatchesRefs cb store2 rest).1) =
          batch.map (storeGet store2) := by
        refine List.map_congr_left (fun p hp => ?_)
        exact ihframe p (fun hpr => hdisj hp hpr)
      rw [hbatchpart, mmap]
      have hrestpart : (rest.map (fun b =>
          mergeBatch (b.map (storeGet store2)) (cb (b.map (storeGet store2))))) =
          (rest.map (fun b =>
            mergeBatch (b.map (storeGet store)) (cb (b.map (storeGet store))))) :=
        List.map_congr_left (fun b hb => by rw [hchunkvals b hb])
      rw [ihmap, hrestpart]

/-- Chunking commutes with mapping a function over the work queue. -/
theorem chunkList_map {α β : Type} (f : α → β) (bs : Nat) (l : List α) :
    chunkList bs (l.map f) = (chunkList bs l).map (fun c => c.map f) := by
  induction l using chunkList.induct bs with
  | case1 => simp [chunkList]
  | case2 rec rest ih =>
    rw [List.map_cons, chunkList, chunkList]
    simp only [List.map_cons, List.map_take]
    rw [← List.map_drop, ih]

/-- C10 — In-place mutation: on a fresh run (no checkpoint, so the work
queue is the caller's whole record list), `classify_all` applies the
enrichment merge (`record.update` or the sentinel assignment) to the very
record objects supplied by the caller: the returned accumulator holds
exactly the caller's references in order (the records are shared, not
copied), no record object outside the input is touched, and the caller's
input list afterwards observes, on every record, exactly the enrichment
the value-level run produces. -/
theorem claim_classify_all_mutates_in_place (cb : List Dict → List Dict)
    (store : List Dict) (refs : List Nat) (bs : Nat)
    (hnd : refs.Nodup) (hvalid : ∀ ref ∈ refs, ref < store.length) :
    (classifyAllRefs cb store refs bs).2 = refs ∧
    (∀ i, i ∉ refs → storeGet (classifyAllRefs cb store refs bs).1 i = storeGet store i) ∧
    refs.map (storeGet (classifyAllRefs cb store refs bs).1) =
      (classify_all cb (refs.map (storeGet store)) none bs true).acc := by
  by_cases hempty : refs.isEmpty
  · have hnil : refs = [] := List.isEmpty_iff.mp hempty
    subst hnil
    exact ⟨rfl, fun i _ => rfl, rfl⟩
  · have hval : ∀ ref ∈ (chunkList bs refs).flatten, ref < store.length := by
      rw [chunkList_flatten]; exact hvalid
    have hndf : (chunkList bs refs).flatten.Nodup := by
      rw [chunkList_flatten]; exact hnd
    obtain ⟨hacc, _, hframe, hmap⟩ :=
      runBatchesRefs_spec cb (chunkList bs refs) store hndf hval
    rw [chunkList_flatten] at hacc hframe hmap
    have hrefs : classifyAllRefs cb store refs bs =
        runBatchesRefs cb store (chunkList bs refs) := by
      unfold classifyAllRefs
      rw [if_neg (by simpa using hempty)]
    have hvalside : (classify_all cb (refs.map (storeGet store)) none bs true).acc =
        ((chunkList bs refs).map (fun b =>
          mergeBatch (b.map (storeGet store)) (cb (b.map (storeGet store))))).flatten := by
      have hne : (refs.map (storeGet store)).isEmpty = false := by
        cases refs with
        | nil => exact absurd rfl hempty
        | cons a l => rfl
      have hrem : (refs.map (storeGet store)).filter
          (fun rec => !((List.map uid ([] : List Dict)).contains (uid rec))) =
          refs.map (storeGet store) := by simp
      unfold classify_all
      simp only [hrem]
      rw [if_neg (by simp [hne])]
      simp only [runBatches_acc, List.nil_append]
      rw [chunkList_map (storeGet store) bs refs, List.map_map]
      rfl
    rw [hrefs, hvalside]
    exact ⟨hacc, hframe, hmap⟩

/-- Witness for C10 at a concrete oracle, heap and reference list. -/
theorem claim_classify_all_mutates_in_place_witness :
    (classifyAllRefs (fun b => List.replicate b.length [("priority_score", "9")])
        [[("id", "x")], [("id", "y")], [("id", "z")]] [0, 2] 10).2 = [0, 2] ∧
    (∀ i, i ∉ [0, 2] →
      storeGet (classifyAllRefs (fun b => List.replicate b.length [("priority_score", "9")])
        [[("id", "x")], [("id", "y")], [("id", "z")]] [0, 2] 10).1 i =
      storeGet [[("id", "x")], [("id", "y")], [("id", "z")]] i) ∧
    [0, 2].map (storeGet (classifyAllRefs
        (fun b => List.replicate b.length [("priority_score", "9")])
        [[("id", "x")], [("id", "y")], [("id", "z")]] [0, 2] 10).1) =
      (classify_all (fun b => List.replicate b.length [("priority_score", "9")])
        ([0, 2].map (storeGet [[("id", "x")], [("id", "y")], [("id", "z")]]))
        none 10 true).acc :=
  claim_classify_all_mutates_in_place
    (fun b => List.replicate b.length [("priority_score", "9")])
    [[("id", "x")], [("id", "y")], [("id", "z")]] [0, 2] 10
    (by decide) (by decide)

end Horeca
